import Mathlib

/-!
Verification of the mongooplog tailing-and-batched-replay pipeline
(`mongooplog/mongooplog.go`) as a shallow embedding.

The Go program runs two tasks: a producer goroutine that reads the source
oplog with a tailing cursor, drops no-op entries (`op == "n"`), and sends
the rest over an unbuffered channel; and the coordinator loop in `Run`,
which on each iteration either receives a timer tick (flush the buffer if
non-empty) or an entry (append; flush when the buffer reaches `maxSize`).
A flush issues one `applyOps` command to the destination session; any
transport error or `ok=false` response makes `Run` return with an error.

Because the channel is unbuffered and the coordinator is a single loop,
every execution is characterised by the sequence of events the coordinator
handles (timer ticks interleaved with received entries); the received
entries are exactly the no-op-filtered source sequence, in order, and at
most one apply call is in flight because the coordinator blocks on each
apply.  The embedding makes that event sequence explicit and models the
destination (`toSession.Run` on `applyOps`) as a function from a batch to
either a transport error or an `ApplyOpsResponse`.
-/

namespace MongoOplog

/-- An oplog entry (`db.Oplog`): 64-bit hybrid timestamp, operation code,
namespace, payload document and optional update selector, the fields the
pipeline relies on. Payload documents are opaque to the pipeline, so they
are modelled as strings. -/
structure Oplog where
  timestamp : Nat
  operation : String
  namespc : String
  object : String
  query : Option String
  deriving DecidableEq, Repr

/-- The destination's reply to an `applyOps` command (`db.ApplyOpsResponse`):
a success flag and an error message. -/
structure ApplyOpsResponse where
  ok : Bool
  errMsg : String
  deriving DecidableEq, Repr

/-- The destination session: an apply call (`toSession.Run` with an
`applyOps` document) either fails in transport (`Except.error`) or returns
a structured response. -/
def Applier : Type := List Oplog → Except String ApplyOpsResponse

/-- `maxSize` from `Run`: the batch size threshold. -/
def maxSize : Nat := 10000

/-- The producer loop (goroutine in `Run`, lines 92-119): each entry read
from the tailing cursor is skipped when its operation is `"n"` and sent on
the channel otherwise. `produce l` is the sequence of entries sent for the
source sequence `l`. -/
def produce : List Oplog → List Oplog
  | [] => []
  | e :: es => if e.operation = "n" then produce es else e :: produce es

/-- Which branch of the coordinator's `select` caused a flush: the timer
tick or the size threshold on receiving an entry. -/
inductive Trigger where
  | timer
  | size
  deriving DecidableEq, Repr

/-- Coordinator state: the accumulation buffer `opsToApply` and the audit
trail of apply calls issued so far (each with the trigger that flushed
it). -/
structure CoordState where
  opsToApply : List Oplog
  calls : List (Trigger × List Oplog)
  deriving DecidableEq, Repr

/-- The initial coordinator state: empty buffer, no apply call issued. -/
def initState : CoordState := ⟨[], []⟩

/-- One iteration of the coordinator's `select`: a timer tick or an entry
received from the channel. -/
inductive Event where
  | tick
  | recv (op : Oplog)
  deriving DecidableEq, Repr

/-- The entries received from the channel along an event trace, in order. -/
def recvs : List Event → List Oplog
  | [] => []
  | Event.tick :: evs => recvs evs
  | Event.recv op :: evs => op :: recvs evs

/-- The trigger corresponding to the `select` branch that handles an
event: a tick flushes via the timer, a received entry via the size
threshold. -/
def flushTrigger : Event → Trigger
  | Event.tick => Trigger.timer
  | Event.recv _ => Trigger.size

/-- Outcome of running the coordinator on a finite event trace: either the
loop is still running in some state, or `Run` returned fatally with an
error message, the calls issued up to and including the failed one
recorded. -/
inductive Outcome where
  | running (s : CoordState)
  | fatal (msg : String) (calls : List (Trigger × List Oplog))
  deriving DecidableEq, Repr

/-- The apply calls recorded by an outcome. -/
def Outcome.callsOf : Outcome → List (Trigger × List Oplog)
  | Outcome.running s => s.calls
  | Outcome.fatal _ calls => calls

/-- One flush attempt (lines 131-140 and 154-163): issue the apply call;
a transport error yields `"error applying ops: "` plus the error, an
`ok=false` response yields `"server gave error applying ops: "` plus the
response's `errmsg`. -/
def applyBatch (applier : Applier) (batch : List Oplog) : Except String Unit :=
  match applier batch with
  | Except.error e => Except.error ("error applying ops: " ++ e)
  | Except.ok res =>
    if !res.ok then Except.error ("server gave error applying ops: " ++ res.errMsg)
    else Except.ok ()

/-- One iteration of the coordinator loop (lines 123-171). On a tick with
an empty buffer, `continue`; on a tick otherwise, flush the buffer; on a
received entry, append it and flush when the buffer length reaches
`maxSize`. A failed flush returns the error (the failing call is
recorded); a successful flush clears the buffer in place. -/
def stepEvent (applier : Applier) (s : CoordState) : Event → Outcome
  | Event.tick =>
    if s.opsToApply = [] then Outcome.running s
    else
      match applyBatch applier s.opsToApply with
      | Except.error e => Outcome.fatal e (s.calls ++ [(Trigger.timer, s.opsToApply)])
      | Except.ok _ => Outcome.running ⟨[], s.calls ++ [(Trigger.timer, s.opsToApply)]⟩
  | Event.recv op =>
    if maxSize ≤ (s.opsToApply ++ [op]).length then
      match applyBatch applier (s.opsToApply ++ [op]) with
      | Except.error e => Outcome.fatal e (s.calls ++ [(Trigger.size, s.opsToApply ++ [op])])
      | Except.ok _ =>
        Outcome.running ⟨[], s.calls ++ [(Trigger.size, s.opsToApply ++ [op])]⟩
    else Outcome.running ⟨s.opsToApply ++ [op], s.calls⟩

/-- Run the coordinator over a finite event trace. The loop itself never
returns: a finite trace either leaves the loop `running`, or `Run` has
returned fatally, in which case the remaining events are never handled. -/
def runEvents (applier : Applier) : List Event → CoordState → Outcome
  | [], s => Outcome.running s
  | ev :: evs, s =>
    match stepEvent applier s ev with
    | Outcome.running s' => runEvents applier evs s'
    | Outcome.fatal e c => Outcome.fatal e c

/-- The threshold computed by `buildTailingCursor` (lines 180-188): the unix
seconds of `now` minus the look-back window, converted to `uint64` (two's
complement, i.e. modulo `2^64`) and shifted left 32 bits (again modulo
`2^64`), giving a hybrid timestamp with counter 0. -/
def thresholdTs (nowUnix seconds : Int) : Nat :=
  ((((nowUnix - seconds) % (2 ^ 64 : Int)).toNat) <<< 32) % 2 ^ 64

/-- The tailing query built in `buildTailingCursor` (lines 191-195):
`{ts: {$gte: threshold}}` selects an entry iff its timestamp is at least
the threshold. -/
def oplogQueryMatches (threshold : Nat) (e : Oplog) : Bool :=
  decide (threshold ≤ e.timestamp)

/-- Modelled from the spec: `util.SplitAndValidateNamespace` is not under
src/. Per the spec a namespace has the form `<db>.<collection>`, so it is
split at the first dot; when no dot is present the collection component is
empty (lacking). -/
def splitNamespace (ns : String) : String × String :=
  match ns.data.dropWhile (fun c => c ≠ '.') with
  | [] => (ns, "")
  | _ :: rest => (String.mk (ns.data.takeWhile (fun c => c ≠ '.')), String.mk rest)

/-- The initialization phase of `Run` (lines 33-69): validate the oplog
namespace, then connect to the destination server, then to the source
server. The two session acquisitions are abstracted as `Except` values and
the trace records which connection attempts were made, in order. -/
structure InitTrace where
  result : Except String Unit
  connectionsAttempted : List String
  deriving Repr

/-- `Run`'s pre-streaming work: namespace validation happens before either
`GetSession` call; a namespace lacking a collection component returns the
configuration error with no connection attempted. -/
def runInit (ns : String) (toConn fromConn : Except String Unit) : InitTrace :=
  if (splitNamespace ns).2 = "" then
    ⟨Except.error "the oplog namespace must specify a collection", []⟩
  else
    match toConn with
    | Except.error e => ⟨Except.error ("error connecting to destination db: " ++ e), ["to"]⟩
    | Except.ok _ =>
      match fromConn with
      | Except.error e =>
        ⟨Except.error ("error connecting to source db: " ++ e), ["to", "from"]⟩
      | Except.ok _ => ⟨Except.ok (), ["to", "from"]⟩

/-- A sample non-noop oplog entry (an insert) used to exercise the pipeline
on concrete runs. -/
def sampleOp : Oplog :=
  { timestamp := 1700000100 <<< 32, operation := "i", namespc := "test.coll"
    object := "{a: 1}", query := none }

/-- A sample no-op entry. -/
def sampleNoop : Oplog :=
  { timestamp := 1700000101 <<< 32, operation := "n", namespc := ""
    object := "", query := none }

/-- A destination that accepts every batch. -/
def okApplier : Applier := fun _ => Except.ok ⟨true, ""⟩

/-- A destination that rejects every batch with a duplicate-key error. -/
def dupKeyApplier : Applier := fun _ => Except.ok ⟨false, "duplicate key"⟩

/-- Well-formedness of a recorded apply call: the batch is non-empty, at
most `maxSize` long, and exactly `maxSize` long when the size trigger
flushed it. -/
def goodCall (p : Trigger × List Oplog) : Prop :=
  p.2 ≠ [] ∧ p.2.length ≤ maxSize ∧ (p.1 = Trigger.size → p.2.length = maxSize)

/-- Invariant of the coordinator loop: the buffer stays strictly below the
size threshold (it is flushed as soon as it reaches it) and every recorded
call is well-formed. -/
def sizeInv (s : CoordState) : Prop :=
  s.opsToApply.length < maxSize ∧ ∀ p ∈ s.calls, goodCall p

/-! ### Helper lemmas -/

/-- Every entry the producer forwards has a non-noop operation code. -/
theorem produce_no_noop (l : List Oplog) : ∀ e ∈ produce l, e.operation ≠ "n" := by
  induction l with
  | nil => intro e he; simp [produce] at he
  | cons x xs ih =>
    intro e he
    by_cases hx : x.operation = "n"
    · exact ih e (by simpa [produce, hx] using he)
    · rcases (by simpa [produce, hx] using he : e = x ∨ e ∈ produce xs) with rfl | h
      · exact hx
      · exact ih e h

/-- The producer loop is the noop filter. -/
theorem produce_filter (l : List Oplog) :
    produce l = l.filter (fun e => !(e.operation == "n")) := by
  induction l with
  | nil => rfl
  | cons x xs ih =>
    by_cases hx : x.operation = "n" <;> simp [produce, hx, ih]

/-- A single coordinator iteration that leaves the loop running preserves
the stream of entries: the concatenation of issued batches followed by the
buffer grows exactly by the entries received. -/
theorem stepEvent_join (applier : Applier) (s s' : CoordState) (ev : Event)
    (h : stepEvent applier s ev = Outcome.running s') :
    (s'.calls.map Prod.snd).flatten ++ s'.opsToApply
      = (s.calls.map Prod.snd).flatten ++ s.opsToApply ++ recvs [ev] := by
  cases ev with
  | tick =>
    simp only [stepEvent] at h
    split at h
    · cases h
      simp [recvs, *]
    · split at h
      · cases h
      · cases h
        simp [recvs]
  | recv op =>
    simp only [stepEvent] at h
    split at h
    · split at h
      · cases h
      · cases h
        simp [recvs]
    · cases h
      simp [recvs]

/-- Running the coordinator from state `s` to a still-running state `s'`
extends the concatenation of batches plus buffer by exactly the received
entries, in order. -/
theorem runEvents_join (applier : Applier) :
    ∀ (trace : List Event) (s s' : CoordState),
      runEvents applier trace s = Outcome.running s' →
      (s'.calls.map Prod.snd).flatten ++ s'.opsToApply
        = (s.calls.map Prod.snd).flatten ++ s.opsToApply ++ recvs trace := by
  intro trace
  induction trace with
  | nil =>
    intro s s' h
    cases h
    simp [recvs]
  | cons ev evs ih =>
    intro s s' h
    simp only [runEvents] at h
    cases hstep : stepEvent applier s ev with
    | running s1 =>
      rw [hstep] at h
      have h1 := stepEvent_join applier s s1 ev hstep
      have h2 := ih s1 s' h
      cases ev with
      | tick =>
        simp only [recvs] at h1 ⊢
        rw [h2, h1]
        simp
      | recv op =>
        simp only [recvs] at h1 ⊢
        rw [h2, h1]
        simp
    | fatal m c =>
      rw [hstep] at h
      cases h

/-- A single coordinator iteration preserves the size invariant, and when
it aborts fatally all recorded calls (the failing one included) are
well-formed. -/
theorem stepEvent_sizeInv (applier : Applier) (s : CoordState) (ev : Event)
    (hs : sizeInv s) :
    (∀ s', stepEvent applier s ev = Outcome.running s' → sizeInv s') ∧
    (∀ m c, stepEvent applier s ev = Outcome.fatal m c → ∀ p ∈ c, goodCall p) := by
  obtain ⟨hlen, hcalls⟩ := hs
  cases ev with
  | tick =>
    by_cases hbuf : s.opsToApply = []
    · refine ⟨?_, ?_⟩
      · intro s' h
        simp only [stepEvent, if_pos hbuf] at h
        cases h
        exact ⟨hlen, hcalls⟩
      · intro m c h
        simp only [stepEvent, if_pos hbuf] at h
        cases h
    · have hgood : goodCall (Trigger.timer, s.opsToApply) :=
        ⟨hbuf, le_of_lt hlen, fun hts => by cases hts⟩
      have haug : ∀ p ∈ s.calls ++ [(Trigger.timer, s.opsToApply)], goodCall p := by
        intro p hp
        rcases List.mem_append.1 hp with hp | hp
        · exact hcalls p hp
        · rcases List.mem_singleton.1 hp with rfl
          exact hgood
      refine ⟨?_, ?_⟩
      · intro s' h
        simp only [stepEvent, if_neg hbuf] at h
        cases happ : applyBatch applier s.opsToApply with
        | error e => rw [happ] at h; cases h
        | ok u =>
          rw [happ] at h
          cases h
          exact ⟨by simp [maxSize], haug⟩
      · intro m c h
        simp only [stepEvent, if_neg hbuf] at h
        cases happ : applyBatch applier s.opsToApply with
        | error e =>
          rw [happ] at h
          cases h
          exact haug
        | ok u => rw [happ] at h; cases h
  | recv op =>
    by_cases hthr : maxSize ≤ (s.opsToApply ++ [op]).length
    · have hexact : (s.opsToApply ++ [op]).length = maxSize := by
        have : (s.opsToApply ++ [op]).length = s.opsToApply.length + 1 := by simp
        omega
      have hgood : goodCall (Trigger.size, s.opsToApply ++ [op]) :=
        ⟨by simp, le_of_eq hexact, fun _ => hexact⟩
      have haug : ∀ p ∈ s.calls ++ [(Trigger.size, s.opsToApply ++ [op])], goodCall p := by
        intro p hp
        rcases List.mem_append.1 hp with hp | hp
        · exact hcalls p hp
        · rcases List.mem_singleton.1 hp with rfl
          exact hgood
      refine ⟨?_, ?_⟩
      · intro s' h
        simp only [stepEvent, if_pos hthr] at h
        cases happ : applyBatch applier (s.opsToApply ++ [op]) with
        | error e => rw [happ] at h; cases h
        | ok u =>
          rw [happ] at h
          cases h
          exact ⟨by simp [maxSize], haug⟩
      · intro m c h
        simp only [stepEvent, if_pos hthr] at h
        cases happ : applyBatch applier (s.opsToApply ++ [op]) with
        | error e =>
          rw [happ] at h
          cases h
          exact haug
        | ok u => rw [happ] at h; cases h
    · refine ⟨?_, ?_⟩
      · intro s' h
        simp only [stepEvent, if_neg hthr] at h
        cases h
        refine ⟨?_, hcalls⟩
        show (s.opsToApply ++ [op]).length < maxSize
        have hl1 : (s.opsToApply ++ [op]).length = s.opsToApply.length + 1 := by simp
        omega
      · intro m c h
        simp only [stepEvent, if_neg hthr] at h
        cases h

/-- Along any run from a state satisfying the size invariant, every
recorded apply call — whether the run is still going or aborted fatally —
is well-formed. -/
theorem runEvents_goodCalls (applier : Applier) :
    ∀ (trace : List Event) (s : CoordState), sizeInv s →
      ∀ p ∈ (runEvents applier trace s).callsOf, goodCall p := by
  intro trace
  induction trace with
  | nil => intro s hs p hp; exact hs.2 p hp
  | cons ev evs ih =>
    intro s hs p hp
    simp only [runEvents] at hp
    cases hstep : stepEvent applier s ev with
    | running s1 =>
      rw [hstep] at hp
      exact ih s1 ((stepEvent_sizeInv applier s ev hs).1 s1 hstep) p hp
    | fatal m c =>
      rw [hstep] at hp
      exact (stepEvent_sizeInv applier s ev hs).2 m c hstep p
        (by simpa [Outcome.callsOf] using hp)

/-- A fatal coordinator iteration records exactly one more call: the batch
that failed, which is the buffer plus whatever entry the event delivered,
and `applyBatch` rejected it with the returned message. -/
theorem stepEvent_fatal (applier : Applier) (s : CoordState) (ev : Event)
    (msg : String) (calls : List (Trigger × List Oplog))
    (h : stepEvent applier s ev = Outcome.fatal msg calls) :
    ∃ t, calls = s.calls ++ [(t, s.opsToApply ++ recvs [ev])] ∧
      applyBatch applier (s.opsToApply ++ recvs [ev]) = Except.error msg := by
  cases ev with
  | tick =>
    simp only [stepEvent] at h
    split at h
    · cases h
    · cases happ : applyBatch applier s.opsToApply with
      | error e =>
        rw [happ] at h
        cases h
        exact ⟨Trigger.timer, by simp [recvs], by simpa [recvs] using happ⟩
      | ok u => rw [happ] at h; cases h
  | recv op =>
    simp only [stepEvent] at h
    split at h
    · cases happ : applyBatch applier (s.opsToApply ++ [op]) with
      | error e =>
        rw [happ] at h
        cases h
        exact ⟨Trigger.size, by simp [recvs], by simpa [recvs] using happ⟩
      | ok u => rw [happ] at h; cases h
    · cases h

/-- A fatal run's last recorded call is the one that failed, and its
message is the error `Run` returns. -/
theorem runEvents_fatal_origin (applier : Applier) :
    ∀ (trace : List Event) (s : CoordState) (msg : String)
      (calls : List (Trigger × List Oplog)),
      runEvents applier trace s = Outcome.fatal msg calls →
      ∃ c t b, calls = c ++ [(t, b)] ∧ applyBatch applier b = Except.error msg := by
  intro trace
  induction trace with
  | nil => intro s msg calls h; cases h
  | cons ev evs ih =>
    intro s msg calls h
    simp only [runEvents] at h
    cases hstep : stepEvent applier s ev with
    | running s1 =>
      rw [hstep] at h
      exact ih s1 msg calls h
    | fatal m c =>
      rw [hstep] at h
      cases h
      obtain ⟨t, hc, happ⟩ := stepEvent_fatal applier s ev msg calls hstep
      exact ⟨s.calls, t, s.opsToApply ++ recvs [ev], hc, happ⟩

/-- The batches recorded by a fatal run consist of the batches and buffer
already present at the start followed by a prefix of the received
entries. -/
theorem runEvents_fatal_flatten (applier : Applier) :
    ∀ (trace : List Event) (s : CoordState) (msg : String)
      (calls : List (Trigger × List Oplog)),
      runEvents applier trace s = Outcome.fatal msg calls →
      ∃ ops, (calls.map Prod.snd).flatten
          = (s.calls.map Prod.snd).flatten ++ s.opsToApply ++ ops
        ∧ ops <+: recvs trace := by
  intro trace
  induction trace with
  | nil => intro s msg calls h; cases h
  | cons ev evs ih =>
    intro s msg calls h
    simp only [runEvents] at h
    cases hstep : stepEvent applier s ev with
    | running s1 =>
      rw [hstep] at h
      obtain ⟨ops, hflat, hpre⟩ := ih s1 msg calls h
      obtain ⟨r, hr⟩ := hpre
      have hstepj := stepEvent_join applier s s1 ev hstep
      refine ⟨recvs [ev] ++ ops, ?_, ⟨r, ?_⟩⟩
      · rw [hflat, hstepj]
        simp [List.append_assoc]
      · cases ev with
        | tick => simpa [recvs] using hr
        | recv op => simp [recvs, List.append_assoc, hr]
    | fatal m c =>
      rw [hstep] at h
      cases h
      obtain ⟨t, hc, happ⟩ := stepEvent_fatal applier s ev msg calls hstep
      refine ⟨recvs [ev], ?_, ?_⟩
      · rw [hc]; simp [List.append_assoc]
      · cases ev with
        | tick => exact ⟨recvs evs, by simp [recvs]⟩
        | recv op => exact ⟨recvs evs, by simp [recvs]⟩

/-- Running the coordinator over a concatenated trace: once fatal, the
remaining events are never handled. -/
theorem runEvents_append (applier : Applier) :
    ∀ (l1 l2 : List Event) (s : CoordState),
      runEvents applier (l1 ++ l2) s =
        match runEvents applier l1 s with
        | Outcome.running s' => runEvents applier l2 s'
        | Outcome.fatal m c => Outcome.fatal m c := by
  intro l1
  induction l1 with
  | nil => intro l2 s; rfl
  | cons ev evs ih =>
    intro l2 s
    simp only [List.cons_append, runEvents]
    cases stepEvent applier s ev with
    | running s1 => exact ih l2 s1
    | fatal m c => rfl

/-! ### Claim theorems -/

/-- C1: for any accepted input sequence of non-noop entries handled without
a fatal apply error, the concatenation of all batches passed to apply
calls, in the order issued, equals the input sequence exactly: no entry
duplicated, none lost, relative order preserved. (At most one apply call
is ever in flight: the coordinator is a single sequential loop, which the
embedding reflects by issuing calls one `stepEvent` at a time.) -/
theorem applied_batches_equal_input (applier : Applier) (l : List Oplog)
    (trace : List Event) (s : CoordState)
    (hrecv : recvs trace = produce l)
    (hrun : runEvents applier trace initState = Outcome.running s)
    (hdone : s.opsToApply = []) :
    (s.calls.map Prod.snd).flatten = produce l := by
  have h := runEvents_join applier trace initState s hrun
  simp only [initState, List.map_nil, List.flatten_nil, List.nil_append, hdone,
    List.append_nil, hrecv] at h
  exact h

/-- Witness for C1: a concrete run (one insert received, then a timer
flush) whose single applied batch is exactly the filtered input. -/
theorem applied_batches_equal_input_witness :
    (recvs [Event.recv sampleOp, Event.tick] = produce [sampleOp]
      ∧ runEvents okApplier [Event.recv sampleOp, Event.tick] initState
          = Outcome.running ⟨[], [(Trigger.timer, [sampleOp])]⟩
      ∧ (CoordState.mk [] [(Trigger.timer, [sampleOp])]).opsToApply = [])
    ∧ ((CoordState.mk [] [(Trigger.timer, [sampleOp])]).calls.map Prod.snd).flatten
        = produce [sampleOp] :=
  ⟨⟨by decide, by decide, rfl⟩,
    applied_batches_equal_input okApplier [sampleOp] [Event.recv sampleOp, Event.tick]
      ⟨[], [(Trigger.timer, [sampleOp])]⟩ (by decide) (by decide) rfl⟩

/-- C2: entries whose operation is the no-op code are discarded by the
producer and never appear in any apply call (whether the run is still
going or aborted fatally), and the remaining forwarded entries keep their
relative order (the applied stream is a sublist of the source). -/
theorem noop_entries_never_applied (applier : Applier) (l : List Oplog)
    (trace : List Event)
    (hrecv : recvs trace = produce l) :
    (∀ p ∈ (runEvents applier trace initState).callsOf, ∀ e ∈ p.2,
        e.operation ≠ "n") ∧
    (∀ s, runEvents applier trace initState = Outcome.running s →
        ((s.calls.map Prod.snd).flatten ++ s.opsToApply).Sublist l) := by
  constructor
  · intro p hp e he
    have hin : e ∈ recvs trace := by
      cases hout : runEvents applier trace initState with
      | running s =>
        have hj := runEvents_join applier trace initState s hout
        simp only [initState, List.map_nil, List.flatten_nil, List.nil_append] at hj
        rw [hout] at hp
        simp only [Outcome.callsOf] at hp
        have : e ∈ (s.calls.map Prod.snd).flatten :=
          List.mem_flatten.2 ⟨p.2, List.mem_map.2 ⟨p, hp, rfl⟩, he⟩
        rw [← hj]
        exact List.mem_append.2 (Or.inl this)
      | fatal m c =>
        obtain ⟨ops, hflat, hpre⟩ :=
          runEvents_fatal_flatten applier trace initState m c hout
        simp only [initState, List.map_nil, List.flatten_nil, List.nil_append] at hflat
        rw [hout] at hp
        simp only [Outcome.callsOf] at hp
        have : e ∈ (c.map Prod.snd).flatten :=
          List.mem_flatten.2 ⟨p.2, List.mem_map.2 ⟨p, hp, rfl⟩, he⟩
        rw [hflat] at this
        exact hpre.sublist.subset this
    rw [hrecv] at hin
    exact produce_no_noop l e hin
  · intro s hout
    have hj := runEvents_join applier trace initState s hout
    simp only [initState, List.map_nil, List.flatten_nil, List.nil_append] at hj
    rw [hj, hrecv, produce_filter]
    exact List.filter_sublist l

/-- Witness for C2: a source with a no-op followed by an insert; the no-op
never reaches a batch and the applied stream is a sublist of the source. -/
theorem noop_entries_never_applied_witness :
    recvs [Event.recv sampleOp] = produce [sampleNoop, sampleOp]
    ∧ ((∀ p ∈ (runEvents okApplier [Event.recv sampleOp] initState).callsOf,
          ∀ e ∈ p.2, e.operation ≠ "n") ∧
        (∀ s, runEvents okApplier [Event.recv sampleOp] initState = Outcome.running s →
          ((s.calls.map Prod.snd).flatten ++ s.opsToApply).Sublist [sampleNoop, sampleOp])) :=
  ⟨by decide,
    noop_entries_never_applied okApplier [sampleNoop, sampleOp]
      [Event.recv sampleOp] (by decide)⟩

/-- C3: every batch passed to an apply call is non-empty and holds at most
`maxSize = 10000` entries, and a batch flushed by the size trigger holds
exactly `maxSize` entries. -/
theorem flushed_batch_size_bounds (applier : Applier) (trace : List Event) :
    ∀ p ∈ (runEvents applier trace initState).callsOf,
      p.2 ≠ [] ∧ p.2.length ≤ maxSize ∧
        (p.1 = Trigger.size → p.2.length = maxSize) := by
  intro p hp
  have hinv : sizeInv initState := by
    constructor
    · show ([] : List Oplog).length < maxSize
      simp [maxSize]
    · intro q hq
      simp [initState] at hq
  exact runEvents_goodCalls applier trace initState hinv p hp

/-- Witness for C3: the timer-flushed singleton batch of a concrete run is
non-empty and within bounds. -/
theorem flushed_batch_size_bounds_witness :
    (Trigger.timer, [sampleOp]) ∈
        (runEvents okApplier [Event.recv sampleOp, Event.tick] initState).callsOf
    ∧ ([sampleOp] ≠ []
        ∧ ([sampleOp] : List Oplog).length ≤ maxSize
        ∧ (Trigger.timer = Trigger.size → ([sampleOp] : List Oplog).length = maxSize)) :=
  ⟨by decide,
    flushed_batch_size_bounds okApplier [Event.recv sampleOp, Event.tick]
      (Trigger.timer, [sampleOp]) (by decide)⟩

/-- C4: when a flush's apply call fails — in transport or with an
`ok=false` response, on either flush path: the timer tick on a non-empty
buffer (lines 125-145) or the size threshold reached on a received entry
(lines 147-169) — `Run` returns at once with a single terminal error, the
remaining events are never handled (no further apply call, no retry of
the failed batch), and in the `ok=false` case the error message carries
the response's `errmsg`. -/
theorem apply_failure_fatal (applier : Applier) (pre post : List Event)
    (s : CoordState) (ev : Event) (msg : String)
    (hpre : runEvents applier pre initState = Outcome.running s)
    (hflush : (ev = Event.tick ∧ s.opsToApply ≠ []) ∨
      (∃ op, ev = Event.recv op ∧ maxSize ≤ (s.opsToApply ++ [op]).length))
    (hfail : applyBatch applier (s.opsToApply ++ recvs [ev]) = Except.error msg) :
    runEvents applier (pre ++ ev :: post) initState
        = Outcome.fatal msg
            (s.calls ++ [(flushTrigger ev, s.opsToApply ++ recvs [ev])]) ∧
    ∀ res, applier (s.opsToApply ++ recvs [ev]) = Except.ok res →
      res.ok = false ∧ msg = "server gave error applying ops: " ++ res.errMsg := by
  constructor
  · rw [runEvents_append applier pre (ev :: post) initState, hpre]
    show runEvents applier (ev :: post) s = _
    rcases hflush with ⟨hev, hne⟩ | ⟨op, hev, hthr⟩
    · subst hev
      simp only [recvs, List.append_nil] at hfail
      simp only [runEvents, stepEvent, if_neg hne, hfail, flushTrigger, recvs,
        List.append_nil]
    · subst hev
      simp only [recvs] at hfail
      simp only [runEvents, stepEvent, if_pos hthr, hfail, flushTrigger, recvs]
  · intro res hres
    simp only [applyBatch, hres] at hfail
    by_cases hok : res.ok
    · simp [hok] at hfail
    · simp only [hok, Bool.not_false, if_pos, Except.error.injEq] at hfail
      refine ⟨by simpa using hok, hfail.symm⟩

/-- Witness for C4: a destination rejecting with `errmsg = "duplicate key"`
makes the run fatal with that message in the error, the failing batch the
last call, and a pending later tick never handled. -/
theorem apply_failure_fatal_witness :
    (runEvents dupKeyApplier [Event.recv sampleOp] initState
        = Outcome.running ⟨[sampleOp], []⟩
      ∧ ((Event.tick = Event.tick ∧ (CoordState.mk [sampleOp] []).opsToApply ≠ []) ∨
          (∃ op, Event.tick = Event.recv op ∧
            maxSize ≤ ((CoordState.mk [sampleOp] []).opsToApply ++ [op]).length))
      ∧ applyBatch dupKeyApplier
            ((CoordState.mk [sampleOp] []).opsToApply ++ recvs [Event.tick])
          = Except.error "server gave error applying ops: duplicate key")
    ∧ (runEvents dupKeyApplier ([Event.recv sampleOp] ++ Event.tick :: [Event.tick]) initState
        = Outcome.fatal "server gave error applying ops: duplicate key"
            ((CoordState.mk [sampleOp] []).calls
              ++ [(flushTrigger Event.tick,
                    (CoordState.mk [sampleOp] []).opsToApply ++ recvs [Event.tick])])
      ∧ ∀ res, dupKeyApplier
            ((CoordState.mk [sampleOp] []).opsToApply ++ recvs [Event.tick])
            = Except.ok res →
          res.ok = false ∧
            "server gave error applying ops: duplicate key"
              = "server gave error applying ops: " ++ res.errMsg) :=
  ⟨⟨by decide, Or.inl ⟨rfl, by decide⟩, by rfl⟩,
    apply_failure_fatal dupKeyApplier [Event.recv sampleOp] [Event.tick]
      ⟨[sampleOp], []⟩ Event.tick "server gave error applying ops: duplicate key"
      (by decide) (Or.inl ⟨rfl, by decide⟩) (by rfl)⟩

/-- C5: the cursor builder's resume threshold is the unix seconds of
(now − N seconds) shifted left 32 bits with zero counter bits — for N = 60
at wall-clock 1,700,000,100 it equals 1,700,000,040·2³² and its low 32
bits are zero — and the tailing query selects exactly the entries whose
timestamp is at least the threshold. -/
theorem threshold_and_query :
    thresholdTs 1700000100 60 = 1700000040 * 2 ^ 32
    ∧ thresholdTs 1700000100 60 % 2 ^ 32 = 0
    ∧ ∀ (t : Nat) (e : Oplog), oplogQueryMatches t e = true ↔ t ≤ e.timestamp := by
  refine ⟨by decide, by decide, ?_⟩
  intro t e
  simp [oplogQueryMatches]

/-- C6: a timer tick that fires while the accumulation buffer is empty
issues no apply call and leaves the coordinator state (buffer and recorded
calls) unchanged. -/
theorem empty_tick_frame (applier : Applier) (s : CoordState)
    (h : s.opsToApply = []) :
    stepEvent applier s Event.tick = Outcome.running s := by
  simp [stepEvent, h]

/-- Witness for C6: a tick in the initial (empty-buffer) state is a
no-op. -/
theorem empty_tick_frame_witness :
    initState.opsToApply = []
    ∧ stepEvent okApplier initState Event.tick = Outcome.running initState :=
  ⟨rfl, empty_tick_frame okApplier initState rfl⟩

/-- C7: a configured oplog namespace lacking a collection component makes
`Run` return the configuration error before any session is obtained: no
connection attempt is made to either server. -/
theorem missing_collection_config_error (ns : String)
    (toConn fromConn : Except String Unit)
    (h : (splitNamespace ns).2 = "") :
    (runInit ns toConn fromConn).result
        = Except.error "the oplog namespace must specify a collection"
    ∧ (runInit ns toConn fromConn).connectionsAttempted = [] := by
  simp [runInit, h]

/-- Witness for C7: the namespace `"oplog"` has no collection component;
initialization fails with the configuration error and no connection is
attempted. -/
theorem missing_collection_config_error_witness :
    (splitNamespace "oplog").2 = ""
    ∧ ((runInit "oplog" (Except.ok ()) (Except.ok ())).result
        = Except.error "the oplog namespace must specify a collection"
      ∧ (runInit "oplog" (Except.ok ()) (Except.ok ())).connectionsAttempted = []) :=
  ⟨by decide,
    missing_collection_config_error "oplog" (Except.ok ()) (Except.ok ()) (by decide)⟩

/-- C8: the streaming loop never returns success: any exit is a fatal
outcome whose single error originates from the apply call recorded last;
and exhaustion of the source stream (no further events) leaves the loop
running rather than terminating it. -/
theorem streaming_no_success_exit (applier : Applier) (trace : List Event)
    (msg : String) (calls : List (Trigger × List Oplog))
    (h : runEvents applier trace initState = Outcome.fatal msg calls) :
    (∃ c t b, calls = c ++ [(t, b)] ∧ applyBatch applier b = Except.error msg)
    ∧ ∀ s : CoordState, runEvents applier [] s = Outcome.running s :=
  ⟨runEvents_fatal_origin applier trace initState msg calls h, fun _ => rfl⟩

/-- Witness for C8: a concrete fatal run whose terminal error is the
failed apply of its last recorded batch. -/
theorem streaming_no_success_exit_witness :
    runEvents dupKeyApplier [Event.recv sampleOp, Event.tick] initState
        = Outcome.fatal "server gave error applying ops: duplicate key"
            [(Trigger.timer, [sampleOp])]
    ∧ ((∃ c t b, [(Trigger.timer, [sampleOp])] = c ++ [(t, b)]
          ∧ applyBatch dupKeyApplier b
              = Except.error "server gave error applying ops: duplicate key")
      ∧ ∀ s : CoordState, runEvents dupKeyApplier [] s = Outcome.running s) :=
  ⟨by decide,
    streaming_no_success_exit dupKeyApplier [Event.recv sampleOp, Event.tick]
      "server gave error applying ops: duplicate key"
      [(Trigger.timer, [sampleOp])] (by decide)⟩

/-- C9: after a flush attempt that leaves the loop running (the apply call
succeeded), the batch buffer is cleared: whenever an iteration records a
new apply call, the resulting buffer is empty. (On a fatal abort `Run`
returns, so no buffered copy of the batch survives either.) -/
theorem flush_clears_batch_buffer (applier : Applier) (s s' : CoordState)
    (ev : Event)
    (hstep : stepEvent applier s ev = Outcome.running s')
    (hcall : s'.calls ≠ s.calls) :
    s'.opsToApply = [] := by
  cases ev with
  | tick =>
    by_cases hbuf : s.opsToApply = []
    · simp only [stepEvent, if_pos hbuf] at hstep
      cases hstep
      exact absurd rfl hcall
    · simp only [stepEvent, if_neg hbuf] at hstep
      cases happ : applyBatch applier s.opsToApply with
      | error e => rw [happ] at hstep; cases hstep
      | ok u => rw [happ] at hstep; cases hstep; rfl
  | recv op =>
    by_cases hthr : maxSize ≤ (s.opsToApply ++ [op]).length
    · simp only [stepEvent, if_pos hthr] at hstep
      cases happ : applyBatch applier (s.opsToApply ++ [op]) with
      | error e => rw [happ] at hstep; cases hstep
      | ok u => rw [happ] at hstep; cases hstep; rfl
    · simp only [stepEvent, if_neg hthr] at hstep
      cases hstep
      exact absurd rfl hcall

/-- Witness for C9: the concrete timer flush of a singleton batch leaves
an empty buffer. -/
theorem flush_clears_batch_buffer_witness :
    (stepEvent okApplier ⟨[sampleOp], []⟩ Event.tick
        = Outcome.running ⟨[], [(Trigger.timer, [sampleOp])]⟩
      ∧ (CoordState.mk [] [(Trigger.timer, [sampleOp])]).calls
          ≠ (CoordState.mk [sampleOp] []).calls)
    ∧ (CoordState.mk [] [(Trigger.timer, [sampleOp])]).opsToApply = [] :=
  ⟨⟨by decide, by decide⟩,
    flush_clears_batch_buffer okApplier ⟨[sampleOp], []⟩
      ⟨[], [(Trigger.timer, [sampleOp])]⟩ Event.tick (by decide) (by decide)⟩

/-- C10: the producer's no-op filter tests the operation code against
exactly the single code `"n"`: the forwarded stream is the source filtered
by that one test, and an entry belongs to it iff it occurs in the source
with any other operation code — forwarded as the very same record, its
payload, update selector, namespace and timestamp untouched. -/
theorem noop_code_filter_exact (l : List Oplog) :
    produce l = l.filter (fun e => !(e.operation == "n"))
    ∧ ∀ e : Oplog, e ∈ produce l ↔ e ∈ l ∧ e.operation ≠ "n" := by
  refine ⟨produce_filter l, ?_⟩
  intro e
  rw [produce_filter]
  simp [List.mem_filter]

end MongoOplog
